import Mathlib

/-!
Verification of the npm-dep-tree-analyzer resolution and hoisting engine.

The development shallowly embeds the engine implemented in the repository
(the analyzer class of part_002): JavaScript `Map`s become association
lists whose `set` replaces in place or appends, `Set`s become duplicate-free
string lists, the async registry fetch becomes a pure response value, and
the unbounded recursion of the tree builder is run under an explicit fuel
bound so that non-termination of the source is observable as exhaustion at
every bound.  The external `semver` npm library is not part of the
repository; its four operations are modelled from the specification.
-/

namespace NpmDep

/-! ## Association lists (model of JavaScript `Map`) -/

/-- Lookup in an association list; mirrors `Map.get`/`Map.has` (first
binding wins, and lists built by `setAssoc` are duplicate-free). -/
def lookupA {β : Type} : List (String × β) → String → Option β
  | [], _ => none
  | (k, v) :: t, q => if k == q then some v else lookupA t q

/-- Insertion mirroring JavaScript `Map.set`: replace the binding in place
when the key is present, append otherwise. -/
def setAssoc {β : Type} : List (String × β) → String → β → List (String × β)
  | [], k, v => [(k, v)]
  | (k', v') :: t, k, v => if k' == k then (k, v) :: t else (k', v') :: setAssoc t k v

/-- Membership test on a list of strings; mirrors `Set.has`. -/
def memStr : List String → String → Bool
  | [], _ => false
  | x :: t, s => x == s || memStr t s

/-- Insertion mirroring `Set.add`: append when absent. -/
def addSet (l : List String) (s : String) : List String :=
  if memStr l s then l else l ++ [s]

/-- Whether an association list binds each key at most once (the invariant
every JavaScript `Map` enjoys by construction). -/
def nodupKeysA {β : Type} : List (String × β) → Bool
  | [] => true
  | (k, _) :: t => !(t.any (fun p => p.1 == k)) && nodupKeysA t

theorem lookupA_setAssoc {β : Type} (l : List (String × β)) (k q : String) (v : β) :
    lookupA (setAssoc l k v) q = if k == q then some v else lookupA l q := by
  induction l with
  | nil => simp [setAssoc, lookupA]
  | cons hd t ih =>
      obtain ⟨k', v'⟩ := hd
      by_cases h1 : k' = k
      · subst h1
        by_cases h2 : k' = q <;> simp [setAssoc, lookupA, h2]
      · by_cases h2 : k' = q
        · subst h2
          have : ¬ (k = k') := fun h => h1 h.symm
          simp [setAssoc, lookupA, h1, this]
        · simp [setAssoc, lookupA, h1, h2, ih]

theorem mem_setAssoc {β : Type} (l : List (String × β)) (k : String) (v : β)
    (p : String × β) (hp : p ∈ setAssoc l k v) : p ∈ l ∨ p = (k, v) := by
  induction l with
  | nil => simp [setAssoc] at hp; simp [hp]
  | cons hd t ih =>
      obtain ⟨k', v'⟩ := hd
      by_cases h1 : k' = k
      · subst h1
        simp [setAssoc] at hp
        rcases hp with h | h
        · right; simp [h]
        · left; simp [h]
      · simp [setAssoc, h1] at hp
        rcases hp with h | h
        · left; simp [h]
        · rcases ih h with h' | h'
          · left; simp [h']
          · right; exact h'

theorem lookupA_mem {β : Type} (l : List (String × β)) (q : String) (v : β)
    (h : lookupA l q = some v) : (q, v) ∈ l := by
  induction l with
  | nil => simp [lookupA] at h
  | cons hd t ih =>
      obtain ⟨k', v'⟩ := hd
      by_cases h1 : k' = q
      · subst h1
        simp [lookupA] at h
        simp [h]
      · simp [lookupA, h1] at h
        exact List.mem_cons_of_mem _ (ih h)

theorem nodup_mem_lookupA {β : Type} (l : List (String × β)) (hnd : nodupKeysA l = true)
    (k : String) (v : β) (hm : (k, v) ∈ l) : lookupA l k = some v := by
  induction l with
  | nil => simp at hm
  | cons hd t ih =>
      obtain ⟨k', v'⟩ := hd
      simp only [nodupKeysA, Bool.and_eq_true, Bool.not_eq_true'] at hnd
      rcases List.mem_cons.mp hm with h | h
      · obtain ⟨h1, h2⟩ := Prod.mk.injEq .. ▸ h
        subst h1; subst h2
        simp [lookupA]
      · by_cases h1 : k' = k
        · subst h1
          have : t.any (fun p => p.1 == k') = true := by
            apply List.any_eq_true.mpr
            exact ⟨(k', v), h, by simp⟩
          rw [hnd.1] at this
          simp at this
        · simp [lookupA, h1]
          exact ih hnd.2 h

theorem memStr_addSet_self (l : List String) (s : String) :
    memStr (addSet l s) s = true := by
  unfold addSet
  by_cases h : memStr l s = true
  · simp [h]
  · simp [h]
    have : ∀ l', memStr (l' ++ [s]) s = true := by
      intro l'
      induction l' with
      | nil => simp [memStr]
      | cons x t ih => simp [memStr, ih]
    exact this l

theorem memStr_addSet_mono (l : List String) (s x : String)
    (h : memStr l x = true) : memStr (addSet l s) x = true := by
  unfold addSet
  by_cases hm : memStr l s = true
  · simp [hm, h]
  · simp [hm]
    induction l with
    | nil => simp [memStr] at h
    | cons y t ih =>
        simp [memStr] at h ⊢
        rcases h with h | h
        · left; exact h
        · right
          exact ih h (by intro hc; exact hm (by simp [memStr]; right; exact hc))

/-! ## Semver model

Modelled from the spec: the engine delegates version handling to the
external `semver` npm package, which is not part of this repository.  The
specification (section 4.1) fixes four operations — `valid`, `validRange`,
`satisfies`, `maxSatisfying` — with standard semver semantics
(caret/tilde/exact ranges and wildcards).  Versions are `major.minor.patch`
triples; canonicalisation is the identity on the accepted grammar, and the
parsers are total (the npm library returns null rather than throwing on
malformed input). -/

structure SemVer where
  major : Nat
  minor : Nat
  patch : Nat
deriving DecidableEq, Repr

/-- Split a character list on the dot separator. -/
def splitOnDot : List Char → List (List Char)
  | [] => [[]]
  | c :: t =>
      if c == '.' then [] :: splitOnDot t
      else
        match splitOnDot t with
        | h :: r => (c :: h) :: r
        | [] => [[c]]

/-- Numeric value of a non-empty all-digit character list. -/
def charsToNat? (cs : List Char) : Option Nat :=
  if cs.isEmpty then none
  else if cs.all Char.isDigit then
    some (cs.foldl (fun acc c => acc * 10 + (c.toNat - 48)) 0)
  else none

/-- Parse a concrete `major.minor.patch` version from characters. -/
def parseVersionChars (cs : List Char) : Option SemVer :=
  match splitOnDot cs with
  | [a, b, c] =>
      match charsToNat? a, charsToNat? b, charsToNat? c with
      | some x, some y, some z => some ⟨x, y, z⟩
      | _, _, _ => none
  | _ => none

/-- Parse a concrete `major.minor.patch` version. -/
def parseVersion (s : String) : Option SemVer :=
  parseVersionChars s.data

/-- Strict lexicographic order on versions. -/
def vLt (a b : SemVer) : Bool :=
  Nat.blt a.major b.major ||
    (a.major == b.major &&
      (Nat.blt a.minor b.minor ||
        (a.minor == b.minor && Nat.blt a.patch b.patch)))

/-- Non-strict lexicographic order on versions. -/
def vLe (a b : SemVer) : Bool :=
  vLt a b || (a == b)

/-- Range grammar: exact versions, caret and tilde ranges, the full
wildcard and a major-only wildcard such as range strings of the form
`1.x`. -/
inductive RangeAst where
  | exact : SemVer → RangeAst
  | caret : SemVer → RangeAst
  | tilde : SemVer → RangeAst
  | star : RangeAst
  | majorX : Nat → RangeAst
deriving DecidableEq, Repr

/-- Parse a range from characters into the modelled grammar. -/
def parseRangeChars (cs : List Char) : Option RangeAst :=
  match cs with
  | ['*'] => some RangeAst.star
  | '^' :: rest => (parseVersionChars rest).map RangeAst.caret
  | '~' :: rest => (parseVersionChars rest).map RangeAst.tilde
  | _ =>
      match splitOnDot cs with
      | [a, x] => if x == ['x'] then (charsToNat? a).map RangeAst.majorX else none
      | [a, x, y] =>
          if x == ['x'] && y == ['x'] then (charsToNat? a).map RangeAst.majorX
          else (parseVersionChars cs).map RangeAst.exact
      | _ => (parseVersionChars cs).map RangeAst.exact

/-- Parse a range string into the modelled grammar. -/
def parseRange (s : String) : Option RangeAst :=
  parseRangeChars s.data

/-- Range satisfaction on parsed values, with the standard caret and tilde
semantics. -/
def satisfiesAst (v : SemVer) (r : RangeAst) : Bool :=
  match r with
  | RangeAst.exact w => v == w
  | RangeAst.caret w =>
      if Nat.blt 0 w.major then (v.major == w.major) && vLe w v
      else if Nat.blt 0 w.minor then
        (v.major == 0) && (v.minor == w.minor) && vLe w v
      else v == w
  | RangeAst.tilde w => (v.major == w.major) && (v.minor == w.minor) && vLe w v
  | RangeAst.star => true
  | RangeAst.majorX m => v.major == m

namespace Semver

/-- Spec 4.1: concrete version or nothing (canonicalisation is the
identity in this model). -/
def valid (v : String) : Option String :=
  if (parseVersion v).isSome then some v else none

/-- Spec 4.1: canonical range or nothing (canonicalisation is the
identity in this model). -/
def validRange (r : String) : Option String :=
  if (parseRange r).isSome then some r else none

/-- Spec 4.1: satisfaction of a range by a concrete version; false on
unparseable input, as in the npm library. -/
def satisfies (v r : String) : Bool :=
  match parseVersion v, parseRange r with
  | some pv, some pr => satisfiesAst pv pr
  | _, _ => false

/-- Spec 4.1: greatest listed version satisfying the range, or nothing.
Unparseable list entries are skipped, as in the npm library. -/
def maxSatisfying (vs : List String) (r : String) : Option String :=
  vs.foldl
    (fun acc s =>
      match parseVersion s with
      | none => acc
      | some v =>
          if satisfies s r then
            match acc with
            | none => some s
            | some best =>
                match parseVersion best with
                | some bv => if vLt bv v then some s else acc
                | none => some s
          else acc)
    none

end Semver

/-! ## Data model (part_002 lines 3–60) -/

/-- Per-version record inside a registry metadata document
(part_002 lines 3–9 and the document shape consumed at lines 102–131). -/
structure VersionMeta where
  name : String
  dependencies : List (String × String)
  devDependencies : List (String × String)
  peerDependencies : List (String × String)
deriving DecidableEq, Repr

/-- Package-level registry metadata document: a `versions` map from
concrete version to its record and a `dist-tags` map from tag to concrete
version. -/
structure RegistryDoc where
  versions : List (String × VersionMeta)
  distTags : List (String × String)
deriving DecidableEq, Repr

/-- Resolved package record (part_002 lines 3–9, built at lines 126–132). -/
structure PackageInfo where
  name : String
  version : String
  dependencies : List (String × String)
  devDependencies : List (String × String)
  peerDependencies : List (String × String)
deriving DecidableEq, Repr

/-- Outcome of one registry fetch for a package name: a parsed document,
a non-2xx status (line 98), a body that fails to parse (line 102 throws),
or a transport/timeout failure (the fetch at line 90 throws). -/
inductive RegistryResponse where
  | ok : RegistryDoc → RegistryResponse
  | nonOk : RegistryResponse
  | parseFailure : RegistryResponse
  | transportError : String → RegistryResponse
deriving DecidableEq, Repr

/-- A fixed registry: the response each package name receives. -/
def Registry : Type := String → RegistryResponse

/-- JavaScript error values thrown by the engine: the analyzer defined
`PackageNotFoundError` (part_002 lines 575–583), which carries an optional
cause, and plain `Error` objects identified by their message. -/
inductive JsError where
  | packageNotFound : String → String → Option JsError → JsError
  | error : String → JsError

/-- Node of the logical dependency tree (part_002 lines 11–16). -/
inductive DepNode where
  | mk : String → String → List (String × DepNode) → List (String × String) → DepNode

def DepNode.name : DepNode → String
  | .mk n _ _ _ => n

def DepNode.version : DepNode → String
  | .mk _ v _ _ => v

def DepNode.dependencies : DepNode → List (String × DepNode)
  | .mk _ _ d _ => d

def DepNode.peerDependencies : DepNode → List (String × String)
  | .mk _ _ _ p => p

/-- Entry of the flat dependency index (part_002 lines 18–22);
`requiredBy` models the JavaScript `Set` as a duplicate-free list. -/
structure FlatDependency where
  name : String
  version : String
  requiredBy : List String
deriving DecidableEq, Repr

/-- Record placed in the hoisted tree (part_002 lines 24–30). -/
structure HoistedDependency where
  name : String
  version : String
  dependencies : List (String × String)
  peerDependencies : List (String × String)
  parent : Option String
deriving DecidableEq, Repr

/-- The hoisted tree (part_002 lines 32–35). -/
structure HoistedTree where
  root : List (String × HoistedDependency)
  nested : List (String × List (String × HoistedDependency))
deriving DecidableEq, Repr

/-- Analyzer state that outlives individual calls: the metadata cache
keyed by name-at-descriptor strings (part_002 line 66) together with the
log of package names for which a network fetch was issued, in order. -/
structure AnState where
  cache : List (String × PackageInfo)
  fetchLog : List String
deriving DecidableEq, Repr

/-- Result of a single-package analysis (part_002 lines 48–52). -/
structure AnalysisResult where
  dependencyTree : DepNode
  hoistedTree : HoistedTree
  flatDependencies : List (String × FlatDependency)

/-- Result of a multi-package analysis (part_002 lines 54–60). -/
structure MultiPackageAnalysisResult where
  individual : List (String × AnalysisResult)
  combinedHoistedTree : HoistedTree
  combinedFlatDependencies : List (String × FlatDependency)

/-! ## Version resolution and metadata fetching (part_002 lines 79–144) -/

/-- Version selection of `getPackageInfo` (part_002 lines 105–116): exact
key of `versions` first, then `dist-tags`, then — when the descriptor is a
valid range — `maxSatisfying` over the keys of `versions`. -/
def resolveVersion (doc : RegistryDoc) (version : String) : Option String :=
  if (lookupA doc.versions version).isSome then some version
  else
    match lookupA doc.distTags version with
    | some tagged => some tagged
    | none =>
        if (Semver.validRange version).isSome then
          Semver.maxSatisfying (doc.versions.map Prod.fst) version
        else none

/-- Body of the `try` block of `getPackageInfo` (part_002 lines 88–136)
evaluated against the response the registry gives for `name`: each
`throw` becomes an error value.  A non-2xx response throws a
`PackageNotFoundError` without cause (line 99); an unparseable body and a
transport failure throw their own error (lines 90, 102); a missing
selection throws a `PackageNotFoundError` caused by a plain error with
message No matching version found (lines 118–124); and reading the
per-version record of a selected version that is absent from `versions`
throws a TypeError (line 127). -/
def getPackageInfoTry (resp : RegistryResponse) (name version : String) :
    Except JsError PackageInfo :=
  match resp with
  | RegistryResponse.nonOk => Except.error (JsError.packageNotFound name version none)
  | RegistryResponse.parseFailure => Except.error (JsError.error "Unexpected end of JSON input")
  | RegistryResponse.transportError m => Except.error (JsError.error m)
  | RegistryResponse.ok doc =>
      match resolveVersion doc version with
      | none =>
          Except.error (JsError.packageNotFound name version
            (some (JsError.error "No matching version found")))
      | some matched =>
          match lookupA doc.versions matched with
          | none => Except.error (JsError.error "TypeError: cannot read properties of undefined")
          | some meta =>
              Except.ok
                { name := meta.name
                  version := matched
                  dependencies := meta.dependencies
                  devDependencies := meta.devDependencies
                  peerDependencies := meta.peerDependencies }

/-- Uncached fetch-and-resolve path of `getPackageInfo`: the `catch` at
part_002 lines 137–143 wraps every error thrown inside the `try` block in
a `PackageNotFoundError` that carries the thrown error as its cause. -/
def getPackageInfoFetch (resp : RegistryResponse) (name version : String) :
    Except JsError PackageInfo :=
  match getPackageInfoTry resp name version with
  | Except.ok info => Except.ok info
  | Except.error e => Except.error (JsError.packageNotFound name version (some e))

/-- The cache key of part_002 line 83. -/
def cacheKey (name version : String) : String := name ++ "@" ++ version

/-- Stateful `getPackageInfo` (part_002 lines 79–144): a cached key is
answered from the cache without touching the network; otherwise one fetch
is issued (recorded in the fetch log) and a successful resolution is
cached before being returned. -/
def getPackageInfo (reg : Registry) (st : AnState) (name version : String) :
    Except JsError PackageInfo × AnState :=
  let key := cacheKey name version
  match lookupA st.cache key with
  | some info => (Except.ok info, st)
  | none =>
      let st1 : AnState := { st with fetchLog := st.fetchLog ++ [name] }
      match getPackageInfoFetch (reg name) name version with
      | Except.ok info =>
          (Except.ok info, { st1 with cache := setAssoc st1.cache key info })
      | Except.error e => (Except.error e, st1)

/-- Registry request URL construction, from part_002 line 91: the package
name is interpolated into the path with no percent-encoding. -/
def requestUrl (registry name : String) : String := registry ++ "/" ++ name

/-! ## Tree building (part_002 lines 146–202) -/

/-- Flat-index registration of one occurrence (part_002 lines 166–176):
create the entry with a singleton `requiredBy` when the key is absent,
otherwise add the requiring path to the existing set. -/
def addFlat (flat : List (String × FlatDependency)) (key name version reqBy : String) :
    List (String × FlatDependency) :=
  match lookupA flat key with
  | none => setAssoc flat key { name := name, version := version, requiredBy := [reqBy] }
  | some e =>
      setAssoc flat key
        { name := e.name, version := e.version, requiredBy := addSet e.requiredBy reqBy }

/-- The path of a node as used for its children (part_002 lines 162–164). -/
def childPath (parentPath name resolvedVersion : String) : String :=
  if parentPath == "" then name ++ "@" ++ resolvedVersion
  else parentPath ++ " > " ++ name ++ "@" ++ resolvedVersion

mutual

/-- `buildDependencyTree` (part_002 lines 146–202) under an explicit fuel
bound on recursion depth: the source recursion carries no cycle guard, so
exhaustion of every finite bound is how its divergence on cyclic metadata
is observed.  Sibling resolutions, concurrent in the source, are threaded
sequentially; for a fixed registry the produced tree, flat index and cache
contents agree with the source.  On any child error the whole build fails,
as `Promise.all` rejects (line 192). -/
def buildDependencyTree (reg : Registry) (fuel : Nat) (st : AnState)
    (flat : List (String × FlatDependency)) (name version parentPath : String) :
    Except JsError DepNode × List (String × FlatDependency) × AnState :=
  match fuel with
  | 0 => (Except.error (JsError.error "fuel-exhausted"), flat, st)
  | fuel' + 1 =>
      match getPackageInfo reg st name version with
      | (Except.error e, st') => (Except.error e, flat, st')
      | (Except.ok info, st') =>
          let currentPath := childPath parentPath name info.version
          let key := cacheKey name info.version
          let flat1 := addFlat flat key name info.version
            (if parentPath == "" then "root" else parentPath)
          match buildDependencyList reg fuel' st' flat1 info.dependencies currentPath with
          | (Except.ok children, flat2, st2) =>
              (Except.ok (DepNode.mk name info.version children info.peerDependencies),
                flat2, st2)
          | (Except.error e, flat2, st2) => (Except.error e, flat2, st2)

/-- Sequential processing of the dependency entries of one node
(part_002 lines 179–199). -/
def buildDependencyList (reg : Registry) (fuel : Nat) (st : AnState)
    (flat : List (String × FlatDependency)) (deps : List (String × String))
    (parentPath : String) :
    Except JsError (List (String × DepNode)) × List (String × FlatDependency) × AnState :=
  match deps with
  | [] => (Except.ok [], flat, st)
  | (depName, depVersion) :: rest =>
      match fuel with
      | 0 => (Except.error (JsError.error "fuel-exhausted"), flat, st)
      | fuel' + 1 =>
          match buildDependencyTree reg fuel' st flat depName depVersion parentPath with
          | (Except.ok node, flat1, st1) =>
              match buildDependencyList reg fuel' st1 flat1 rest parentPath with
              | (Except.ok nodes, flat2, st2) =>
                  (Except.ok ((depName, node) :: nodes), flat2, st2)
              | (Except.error e, flat2, st2) => (Except.error e, flat2, st2)
          | (Except.error e, flat1, st1) => (Except.error e, flat1, st1)

end

/-! ## Hoisting planner (part_002 lines 315–465) -/

/-- Conversion of a logical node to a hoisted record
(part_002 lines 325–339): dependency children collapse to their resolved
versions, peer descriptors are copied literally. -/
def convertToHoistedDep (n : DepNode) (parent : Option String) : HoistedDependency :=
  { name := n.name
    version := n.version
    dependencies := n.dependencies.map (fun c => (c.1, c.2.version))
    peerDependencies := n.peerDependencies
    parent := parent }

/-- Version-conflict predicate of the planner (part_002 lines 341–383),
applied to the version already at root and the version of the candidate.  The
try/catch of the source is modelled as unreachable: none of the semver
operations it calls throws on string input. -/
def hasVersionConflict (v1 v2 : String) : Bool :=
  if v1 == v2 then false
  else
    let range1 := (Semver.validRange v1).getD v1
    let range2 := (Semver.validRange v2).getD v2
    match Semver.valid v1, Semver.valid v2 with
    | some a, some b => a != b
    | some a, none => !(Semver.satisfies a range2)
    | none, some b => !(Semver.satisfies b range1)
    | none, none => true

/-- Peer check of the planner (part_002 lines 386–412): a candidate can be
hoisted iff every root-level peer declaration naming it is satisfied by
its version, and every peer the candidate itself declares that already has
a root entry is satisfied by the version of that entry. -/
def canBeHoisted (root : List (String × HoistedDependency)) (dep : DepNode) : Bool :=
  (root.all fun rp =>
    match lookupA rp.2.peerDependencies dep.name with
    | some required => Semver.satisfies dep.version required
    | none => true) &&
  (dep.peerDependencies.all fun pp =>
    match lookupA root pp.1 with
    | some hoistedPeer => Semver.satisfies hoistedPeer.version pp.2
    | none => true)

/-- The three placement outcomes of the non-root branch of `processNode`. -/
inductive Placement where
  | toRoot : Placement
  | toNested : Placement
  | reuse : Placement
deriving DecidableEq, Repr

/-- Placement decision for a non-root node (part_002 lines 430–455): hoist
when the name is free at root and the peer check passes; nest when the
name is free but the peer check fails, or when the name is taken and
either the versions conflict or the peer check fails; otherwise reuse the
existing root entry. -/
def placeDecision (tree : HoistedTree) (n : DepNode) : Placement :=
  match lookupA tree.root n.name with
  | none => if canBeHoisted tree.root n then Placement.toRoot else Placement.toNested
  | some existing =>
      if hasVersionConflict existing.version n.version || !(canBeHoisted tree.root n) then
        Placement.toNested
      else Placement.reuse

/-- Nested placement (part_002 lines 437–442 and 448–453): ensure a bucket
for the parent path exists, then set the entry. -/
def nestedAdd (tree : HoistedTree) (parentPath name : String) (dep : HoistedDependency) :
    HoistedTree :=
  let bucket := (lookupA tree.nested parentPath).getD []
  { tree with nested := setAssoc tree.nested parentPath (setAssoc bucket name dep) }

/-- One placement step of the non-root branch of `processNode`
(part_002 lines 430–455), before recursing into children. -/
def processOne (tree : HoistedTree) (n : DepNode) (parentPath : String) : HoistedTree :=
  match placeDecision tree n with
  | Placement.toRoot =>
      { tree with root := setAssoc tree.root n.name (convertToHoistedDep n none) }
  | Placement.toNested => nestedAdd tree parentPath n.name (convertToHoistedDep n (some parentPath))
  | Placement.reuse => tree

/-- The logical key of a node, used as the parent path for its children
(part_002 line 420). -/
def nodeKey (n : DepNode) : String := n.name ++ "@" ++ n.version

mutual

/-- Non-root case of `processNode` (part_002 lines 415–461, with
`isRoot = false`): place the node, then recurse into its children using
the logical key of the node as their parent path. -/
def processNode (tree : HoistedTree) (n : DepNode) (parentPath : String) : HoistedTree :=
  match n with
  | DepNode.mk nm v deps peers =>
      processChildren (processOne tree (DepNode.mk nm v deps peers) parentPath) deps
        (nodeKey (DepNode.mk nm v deps peers))

/-- Recursion over the children of a node (part_002 lines 424–426, 458–460). -/
def processChildren (tree : HoistedTree) (l : List (String × DepNode)) (key : String) :
    HoistedTree :=
  match l with
  | [] => tree
  | (_, child) :: rest => processChildren (processNode tree child key) rest key

end

/-- `convertToHoistedTree` (part_002 lines 315–465): starting from an
empty hoisted tree, the root branch of `processNode` (lines 422–428)
places the given logical root at the top level unconditionally and then
processes its children with the logical key of the root as parent path. -/
def convertToHoistedTree (node : DepNode) : HoistedTree :=
  processChildren
    { root := setAssoc [] node.name (convertToHoistedDep node none), nested := [] }
    node.dependencies (nodeKey node)

/-! ## Analyzer facade (part_002 lines 467–573) -/

/-- `analyzeSingle` (part_002 lines 467–484): build the logical tree with
a fresh flat index, then hoist it. -/
def analyzeSingle (reg : Registry) (fuel : Nat) (st : AnState)
    (packageName version : String) : Except JsError AnalysisResult × AnState :=
  match buildDependencyTree reg fuel st [] packageName version "" with
  | (Except.ok tree, flat, st') =>
      (Except.ok
        { dependencyTree := tree
          hoistedTree := convertToHoistedTree tree
          flatDependencies := flat }, st')
  | (Except.error e, _, st') => (Except.error e, st')

/-- Union of one flat index into the combined index
(part_002 lines 510–523). -/
def mergeFlat (acc source : List (String × FlatDependency)) :
    List (String × FlatDependency) :=
  source.foldl
    (fun acc kv =>
      match lookupA acc kv.1 with
      | none =>
          setAssoc acc kv.1
            { name := kv.2.name, version := kv.2.version, requiredBy := kv.2.requiredBy }
      | some e =>
          setAssoc acc kv.1
            { name := e.name, version := e.version
              requiredBy := kv.2.requiredBy.foldl addSet e.requiredBy })
    acc

/-- Sequential per-package analysis loop of `analyzeMultiple`
(part_002 lines 490–494); the first failure aborts the whole call. -/
def analyzeEach (reg : Registry) (fuel : Nat) (st : AnState)
    (packages : List (String × String)) :
    Except JsError (List (String × AnalysisResult)) × AnState :=
  match packages with
  | [] => (Except.ok [], st)
  | (name, version) :: rest =>
      match analyzeSingle reg fuel st name version with
      | (Except.ok result, st1) =>
          match analyzeEach reg fuel st1 rest with
          | (Except.ok results, st2) =>
              (Except.ok ((cacheKey name version, result) :: results), st2)
          | (Except.error e, st2) => (Except.error e, st2)
      | (Except.error e, st1) => (Except.error e, st1)

/-- `analyzeMultiple` (part_002 lines 486–536): analyze each package
individually, merge the flat indices, hang every individual tree under a
synthetic `virtual-root` node with version `0.0.0` and empty peers, and
hoist that synthetic root. -/
def analyzeMultiple (reg : Registry) (fuel : Nat) (st : AnState)
    (packages : List (String × String)) :
    Except JsError MultiPackageAnalysisResult × AnState :=
  match analyzeEach reg fuel st packages with
  | (Except.error e, st') => (Except.error e, st')
  | (Except.ok individual, st') =>
      let combinedFlat :=
        individual.foldl (fun acc kv => mergeFlat acc kv.2.flatDependencies) []
      let virtualRoot : DepNode :=
        DepNode.mk "virtual-root" "0.0.0"
          (individual.map (fun kv => (kv.1, kv.2.dependencyTree))) []
      (Except.ok
        { individual := individual
          combinedHoistedTree := convertToHoistedTree virtualRoot
          combinedFlatDependencies := combinedFlat }, st')

/-! ## Observation functions used by the claims -/

mutual

/-- All occurrences in a logical tree, as name, version and the parent
path that hosted the occurrence, mirroring the path bookkeeping of
`buildDependencyTree` (part_002 lines 162–176). -/
def occsNode (n : DepNode) (parentPath : String) : List (String × String × String) :=
  match n with
  | DepNode.mk nm v deps _ =>
      (nm, v, parentPath) :: occsChildren deps (childPath parentPath nm v)

/-- Occurrences of a list of child subtrees. -/
def occsChildren (l : List (String × DepNode)) (cur : String) :
    List (String × String × String) :=
  match l with
  | [] => []
  | (_, child) :: rest => occsNode child cur ++ occsChildren rest cur

end

/-- The peer-satisfaction property at the hoisted root (spec section 8,
property 4): every peer declaration of a root entry whose name has a root
entry is satisfied by the version of that entry. -/
def rootPeersOK (root : List (String × HoistedDependency)) : Bool :=
  root.all fun rp =>
    rp.2.peerDependencies.all fun pp =>
      match lookupA root pp.1 with
      | some h => Semver.satisfies h.version pp.2
      | none => true

mutual

/-- Well-formedness of a logical tree as the hoist planner receives it:
the peer map of every node is key-unique (a JavaScript `Map` invariant the
association-list model must state explicitly) and no node declares a peer
dependency on its own name. -/
def depWF (n : DepNode) : Bool :=
  match n with
  | DepNode.mk nm _ deps peers =>
      nodupKeysA peers && (peers.all fun pp => pp.1 != nm) && depsWF deps

/-- Well-formedness of a list of child subtrees. -/
def depsWF (l : List (String × DepNode)) : Bool :=
  match l with
  | [] => true
  | (_, child) :: rest => depWF child && depsWF rest

end

/-- Whether an exception value is a success. -/
def exceptIsOk {ε α : Type} : Except ε α → Bool
  | Except.ok _ => true
  | Except.error _ => false

/-- Number of registry fetches issued when two resolutions of the same
cache key are started together, as `buildDependencyTree` starts sibling
resolutions (part_002 lines 179–192, one promise per dependency entry,
awaited as a group).  Under the event loop each task runs synchronously up
to its first await — the cache check of part_002 lines 83–86 — before
either fetch (line 90) completes and the cache write (line 135) runs, so
both tasks observe the same cache and a shared miss issues two fetches. -/
def concurrentSameKeyFetches (cache : List (String × PackageInfo)) (key : String) : Nat :=
  (if (lookupA cache key).isSome then 0 else 1) +
    (if (lookupA cache key).isSome then 0 else 1)

/-- Peer-map key-uniqueness of every root entry, carried as an auxiliary
invariant of the placement walk. -/
def rootNodupPeers (root : List (String × HoistedDependency)) : Bool :=
  root.all fun rp => nodupKeysA rp.2.peerDependencies

/-- Whether one failure condition of the resolution path holds: a non-2xx
status, an unparseable body, a transport failure, a descriptor that
matches nothing, or a descriptor whose selected version has no record in
the `versions` map. -/
def resolutionFails (resp : RegistryResponse) (d : String) : Bool :=
  match resp with
  | RegistryResponse.ok doc =>
      match resolveVersion doc d with
      | none => true
      | some mv => (lookupA doc.versions mv).isNone
  | _ => true

/-! ## Concrete example inputs used by witnesses and counterexamples -/

/-- A document with two published versions and a dist-tag whose name is
also a valid semver range. -/
def exDocTagRange : RegistryDoc :=
  { versions := [("1.0.0", ⟨"a", [], [], []⟩), ("2.0.0", ⟨"a", [], [], []⟩)]
    distTags := [("1.x", "2.0.0")] }

/-- A document whose `latest` dist-tag names a version that has no record
in `versions`. -/
def exDocDangling : RegistryDoc :=
  { versions := [("1.0.0", ⟨"a", [], [], []⟩)]
    distTags := [("latest", "2.0.0")] }

/-- Registry metadata in which package `a` at version 1.0.0 declares a
dependency back on `a` at 1.0.0: a declared-dependency cycle. -/
def exRegCyclic : Registry := fun _ =>
  RegistryResponse.ok { versions := [("1.0.0", ⟨"a", [("a", "1.0.0")], [], []⟩)], distTags := [] }

/-- The resolved record the cyclic registry yields for `a` at 1.0.0. -/
def exInfoCyclic : PackageInfo :=
  { name := "a", version := "1.0.0", dependencies := [("a", "1.0.0")]
    devDependencies := [], peerDependencies := [] }

/-- A registry answering only for a dependency-free package `a`. -/
def exRegSingle : Registry := fun n =>
  if n == "a" then RegistryResponse.ok ⟨[("1.0.0", ⟨"a", [], [], []⟩)], []⟩
  else RegistryResponse.nonOk

/-- The analysis result of `a` at 1.0.0 against `exRegSingle`. -/
def exResSingle : AnalysisResult :=
  { dependencyTree := DepNode.mk "a" "1.0.0" [] []
    hoistedTree :=
      { root := [("a", { name := "a", version := "1.0.0", dependencies := []
                         peerDependencies := [], parent := none })]
        nested := [] }
    flatDependencies := [("a@1.0.0", { name := "a", version := "1.0.0", requiredBy := ["root"] })] }

/-- The analyzer state after analysing `a` at 1.0.0 against `exRegSingle`
from an empty state: one cached record, one fetch. -/
def exStSingle : AnState :=
  { cache := [("a@1.0.0", { name := "a", version := "1.0.0", dependencies := []
                            devDependencies := [], peerDependencies := [] })]
    fetchLog := ["a"] }

/-- A registry with a package `p` depending on `q` through a caret range. -/
def exRegPair : Registry := fun n =>
  if n == "p" then RegistryResponse.ok ⟨[("1.0.0", ⟨"p", [("q", "^1.0.0")], [], []⟩)], []⟩
  else if n == "q" then
    RegistryResponse.ok ⟨[("1.0.0", ⟨"q", [], [], []⟩), ("1.2.0", ⟨"q", [], [], []⟩)], []⟩
  else RegistryResponse.nonOk

/-- A hoisted tree holding `a` at 1.0.0 at root. -/
def exTreeRootA : HoistedTree :=
  ⟨[("a", { name := "a", version := "1.0.0", dependencies := []
            peerDependencies := [], parent := none })], []⟩

/-- A logical node for `a` at 2.0.0, conflicting with `exTreeRootA`. -/
def exNodeA2 : DepNode := DepNode.mk "a" "2.0.0" [] []

/-- A logical node that declares a peer dependency on its own name with a
range its own version does not satisfy. -/
def exNodeSelfPeer : DepNode := DepNode.mk "a" "1.0.0" [] [("a", "2.0.0")]

/-- A well-formed logical tree: an application with a react child and a
library child whose react peer is satisfied at root. -/
def exTreePeers : DepNode :=
  DepNode.mk "app" "1.0.0"
    [("react", DepNode.mk "react" "18.2.0" [] []),
     ("lib", DepNode.mk "lib" "1.0.0" [] [("react", "^18.0.0")])]
    []

/-- A registry that always reports not-found; the empty multi-package
analysis never consults it. -/
def exRegUnused : Registry := fun _ => RegistryResponse.nonOk

/-- Cache extension: every cached binding of the first state is present
unchanged in the second (the cache of part_002 line 66 is insert-once:
entries are written only on a miss and never overwritten). -/
def cacheLe (s1 s2 : AnState) : Prop :=
  ∀ k i, lookupA s1.cache k = some i → lookupA s2.cache k = some i

/-- Flat-index extension: every entry persists and keeps every recorded
requirer (part_002 lines 166–176 only add to `requiredBy`). -/
def flatLe (f g : List (String × FlatDependency)) : Prop :=
  ∀ k e, lookupA f k = some e → ∃ e2, lookupA g k = some e2 ∧
    ∀ s, memStr e.requiredBy s = true → memStr e2.requiredBy s = true

/-- The flat index holds an entry under `key` whose requirer set records
`req`. -/
def flatRecords (flat : List (String × FlatDependency)) (key req : String) : Prop :=
  ∃ e, lookupA flat key = some e ∧ memStr e.requiredBy req = true

/-! ## Placement-decision inversion lemmas -/

theorem placeDecision_toRoot_inv {tree : HoistedTree} {n : DepNode}
    (h : placeDecision tree n = Placement.toRoot) :
    lookupA tree.root n.name = none ∧ canBeHoisted tree.root n = true := by
  unfold placeDecision at h
  cases hl : lookupA tree.root n.name with
  | none =>
      rw [hl] at h
      dsimp only at h
      cases hc : canBeHoisted tree.root n with
      | true => exact ⟨rfl, rfl⟩
      | false => rw [if_neg (by rw [hc]; exact Bool.false_ne_true)] at h; cases h
  | some e =>
      rw [hl] at h
      dsimp only at h
      cases hb : (hasVersionConflict e.version n.version || !(canBeHoisted tree.root n)) with
      | true => rw [if_pos hb] at h; cases h
      | false => rw [if_neg (by rw [hb]; exact Bool.false_ne_true)] at h; cases h

theorem placeDecision_toNested_inv {tree : HoistedTree} {n : DepNode}
    (h : placeDecision tree n = Placement.toNested) :
    (lookupA tree.root n.name = none ∧ canBeHoisted tree.root n = false) ∨
      (∃ e, lookupA tree.root n.name = some e ∧
        (hasVersionConflict e.version n.version = true ∨ canBeHoisted tree.root n = false)) := by
  unfold placeDecision at h
  cases hl : lookupA tree.root n.name with
  | none =>
      rw [hl] at h
      dsimp only at h
      cases hc : canBeHoisted tree.root n with
      | true => rw [if_pos hc] at h; cases h
      | false => exact Or.inl ⟨rfl, rfl⟩
  | some e =>
      rw [hl] at h
      dsimp only at h
      refine Or.inr ⟨e, rfl, ?_⟩
      cases hv : hasVersionConflict e.version n.version with
      | true => exact Or.inl rfl
      | false =>
          cases hc : canBeHoisted tree.root n with
          | true =>
              rw [if_neg (by rw [hv, hc]; exact Bool.false_ne_true)] at h
              cases h
          | false => exact Or.inr rfl

theorem placeDecision_reuse_inv {tree : HoistedTree} {n : DepNode}
    (h : placeDecision tree n = Placement.reuse) :
    ∃ e, lookupA tree.root n.name = some e ∧
      hasVersionConflict e.version n.version = false ∧ canBeHoisted tree.root n = true := by
  unfold placeDecision at h
  cases hl : lookupA tree.root n.name with
  | none =>
      rw [hl] at h
      dsimp only at h
      cases hc : canBeHoisted tree.root n with
      | true => rw [if_pos hc] at h; cases h
      | false => rw [if_neg (by rw [hc]; exact Bool.false_ne_true)] at h; cases h
  | some e =>
      rw [hl] at h
      dsimp only at h
      refine ⟨e, rfl, ?_, ?_⟩
      · cases hv : hasVersionConflict e.version n.version with
        | true => rw [if_pos (by rw [hv]; rfl)] at h; cases h
        | false => rfl
      · cases hc : canBeHoisted tree.root n with
        | true => rfl
        | false =>
            rw [if_pos (by rw [hc]; simp)] at h
            cases h

/-! ## Peer-satisfaction invariant of the placement walk -/

theorem bool_and_split {a b : Bool} (h : (a && b) = true) : a = true ∧ b = true := by
  rw [Bool.and_eq_true] at h
  exact h

theorem bool_and_join {a b : Bool} (h1 : a = true) (h2 : b = true) : (a && b) = true := by
  rw [Bool.and_eq_true]
  exact ⟨h1, h2⟩

theorem canBeHoisted_nil (c : DepNode) : canBeHoisted [] c = true := by
  apply bool_and_join
  · rfl
  · rw [List.all_eq_true]
    intro pp _
    rfl

/-- Inserting a candidate that passes the peer check of `canBeHoisted`
and declares no peer on its own name preserves peer satisfaction at the
hoisted root. -/
theorem rootInsert_inv (root : List (String × HoistedDependency)) (c : DepNode)
    (par : Option String)
    (hOK : rootPeersOK root = true) (hND : rootNodupPeers root = true)
    (hch : canBeHoisted root c = true)
    (hself : (c.peerDependencies.all fun pp => pp.1 != c.name) = true)
    (hcnd : nodupKeysA c.peerDependencies = true) :
    rootPeersOK (setAssoc root c.name (convertToHoistedDep c par)) = true ∧
      rootNodupPeers (setAssoc root c.name (convertToHoistedDep c par)) = true := by
  have hch1 := (bool_and_split hch).1
  have hch2 := (bool_and_split hch).2
  unfold rootPeersOK rootNodupPeers at *
  constructor
  · rw [List.all_eq_true]
    intro rp hrp
    rw [List.all_eq_true]
    intro pp hpp
    by_cases hc : c.name = pp.1
    · have hlk : lookupA (setAssoc root c.name (convertToHoistedDep c par)) pp.1 =
          some (convertToHoistedDep c par) := by
        rw [lookupA_setAssoc, if_pos (by simp [hc])]
      rw [hlk]
      rcases mem_setAssoc _ _ _ rp hrp with hin | hnew
      · have h1 := List.all_eq_true.mp hch1 rp hin
        have hndrp := List.all_eq_true.mp hND rp hin
        have hpl : lookupA rp.2.peerDependencies c.name = some pp.2 := by
          apply nodup_mem_lookupA _ hndrp
          rw [hc]
          exact hpp
        rw [hpl] at h1
        exact h1
      · have hmem : pp ∈ c.peerDependencies := by
          rw [hnew] at hpp
          exact hpp
        have h2 := List.all_eq_true.mp hself pp hmem
        rw [← hc] at h2
        simp at h2
    · have hlk : lookupA (setAssoc root c.name (convertToHoistedDep c par)) pp.1 =
          lookupA root pp.1 := by
        rw [lookupA_setAssoc, if_neg (by simp [hc])]
      rw [hlk]
      rcases mem_setAssoc _ _ _ rp hrp with hin | hnew
      · have h1 := List.all_eq_true.mp hOK rp hin
        have h2 := List.all_eq_true.mp h1 pp hpp
        exact h2
      · have hmem : pp ∈ c.peerDependencies := by
          rw [hnew] at hpp
          exact hpp
        have h2 := List.all_eq_true.mp hch2 pp hmem
        exact h2
  · rw [List.all_eq_true]
    intro rp hrp
    rcases mem_setAssoc _ _ _ rp hrp with hin | hnew
    · exact List.all_eq_true.mp hND rp hin
    · rw [hnew]
      exact hcnd

/-- One placement step preserves peer satisfaction at the root: a nested
or reused node leaves the root untouched, and a hoisted node passed the
peer check. -/
theorem processOne_inv (tree : HoistedTree) (n : DepNode) (p : String)
    (hOK : rootPeersOK tree.root = true) (hND : rootNodupPeers tree.root = true)
    (hself : (n.peerDependencies.all fun pp => pp.1 != n.name) = true)
    (hcnd : nodupKeysA n.peerDependencies = true) :
    rootPeersOK (processOne tree n p).root = true ∧
      rootNodupPeers (processOne tree n p).root = true := by
  unfold processOne
  cases hd : placeDecision tree n with
  | toRoot =>
      dsimp only
      obtain ⟨h1, h2⟩ := placeDecision_toRoot_inv hd
      exact rootInsert_inv tree.root n none hOK hND h2 hself hcnd
  | toNested =>
      dsimp only
      exact ⟨hOK, hND⟩
  | reuse =>
      dsimp only
      exact ⟨hOK, hND⟩

mutual

theorem processNode_inv (tree : HoistedTree) (n : DepNode) (p : String)
    (hOK : rootPeersOK tree.root = true) (hND : rootNodupPeers tree.root = true)
    (hwf : depWF n = true) :
    rootPeersOK (processNode tree n p).root = true ∧
      rootNodupPeers (processNode tree n p).root = true := by
  match n with
  | DepNode.mk nm v deps peers =>
    rw [processNode]
    rw [depWF] at hwf
    obtain ⟨h12, hdeps⟩ := bool_and_split hwf
    obtain ⟨hnd, hself⟩ := bool_and_split h12
    have hone := processOne_inv tree (DepNode.mk nm v deps peers) p hOK hND hself hnd
    exact processChildren_inv (processOne tree (DepNode.mk nm v deps peers) p) deps
      (nodeKey (DepNode.mk nm v deps peers)) hone.1 hone.2 hdeps

theorem processChildren_inv (tree : HoistedTree) (l : List (String × DepNode)) (key : String)
    (hOK : rootPeersOK tree.root = true) (hND : rootNodupPeers tree.root = true)
    (hwf : depsWF l = true) :
    rootPeersOK (processChildren tree l key).root = true ∧
      rootNodupPeers (processChildren tree l key).root = true := by
  match l with
  | [] =>
      rw [processChildren]
      exact ⟨hOK, hND⟩
  | (cn, child) :: rest =>
      rw [processChildren]
      rw [depsWF] at hwf
      obtain ⟨hc, hrest⟩ := bool_and_split hwf
      have hchild := processNode_inv tree child key hOK hND hc
      exact processChildren_inv (processNode tree child key) rest key hchild.1 hchild.2 hrest

end

/-! ## Cache and flat-index monotonicity -/

theorem cacheLe_refl (s : AnState) : cacheLe s s := fun _ _ h => h

theorem cacheLe_trans {a b c : AnState} (h1 : cacheLe a b) (h2 : cacheLe b c) :
    cacheLe a c := fun k i h => h2 k i (h1 k i h)

theorem flatLe_refl (f : List (String × FlatDependency)) : flatLe f f :=
  fun _ e h => ⟨e, h, fun _ hs => hs⟩

theorem flatLe_trans {a b c : List (String × FlatDependency)}
    (h1 : flatLe a b) (h2 : flatLe b c) : flatLe a c := by
  intro k e h
  obtain ⟨e2, hl2, hm2⟩ := h1 k e h
  obtain ⟨e3, hl3, hm3⟩ := h2 k e2 hl2
  exact ⟨e3, hl3, fun s hs => hm3 s (hm2 s hs)⟩

theorem flatLe_records {f g : List (String × FlatDependency)} {key req : String}
    (h : flatLe f g) (hw : flatRecords f key req) : flatRecords g key req := by
  obtain ⟨e, hl, hm⟩ := hw
  obtain ⟨e2, hl2, hm2⟩ := h key e hl
  exact ⟨e2, hl2, hm2 req hm⟩

theorem addFlat_flatLe (flat : List (String × FlatDependency)) (key n v r : String) :
    flatLe flat (addFlat flat key n v r) := by
  intro k e h
  unfold addFlat
  cases hl : lookupA flat key with
  | none =>
      dsimp only
      refine ⟨e, ?_, fun _ hs => hs⟩
      rw [lookupA_setAssoc]
      by_cases hk : key = k
      · subst hk
        rw [hl] at h
        cases h
      · rw [if_neg (by simp [hk])]
        exact h
  | some e0 =>
      dsimp only
      by_cases hk : key = k
      · subst hk
        rw [hl] at h
        obtain rfl : e0 = e := Option.some_inj.mp h
        refine ⟨FlatDependency.mk e0.name e0.version (addSet e0.requiredBy r), ?_, ?_⟩
        · rw [lookupA_setAssoc, if_pos (by simp)]
        · intro s hs
          exact memStr_addSet_mono _ _ _ hs
      · refine ⟨e, ?_, fun _ hs => hs⟩
        rw [lookupA_setAssoc, if_neg (by simp [hk])]
        exact h

theorem addFlat_records (flat : List (String × FlatDependency)) (key n v r : String) :
    flatRecords (addFlat flat key n v r) key r := by
  unfold addFlat
  cases hl : lookupA flat key with
  | none =>
      dsimp only
      refine ⟨FlatDependency.mk n v [r], ?_, ?_⟩
      · rw [lookupA_setAssoc, if_pos (by simp)]
      · show memStr [r] r = true
        simp [memStr]
  | some e0 =>
      dsimp only
      refine ⟨FlatDependency.mk e0.name e0.version (addSet e0.requiredBy r), ?_, ?_⟩
      · rw [lookupA_setAssoc, if_pos (by simp)]
      · exact memStr_addSet_self e0.requiredBy r

theorem getPackageInfo_cacheLe (reg : Registry) (st : AnState) (n v : String) :
    cacheLe st (getPackageInfo reg st n v).2 := by
  unfold getPackageInfo
  dsimp only
  cases hl : lookupA st.cache (cacheKey n v) with
  | some info => exact cacheLe_refl st
  | none =>
      cases hf : getPackageInfoFetch (reg n) n v with
      | ok info =>
          intro k i h
          show lookupA (setAssoc st.cache (cacheKey n v) info) k = some i
          rw [lookupA_setAssoc]
          by_cases hk : cacheKey n v = k
          · subst hk
            rw [hl] at h
            cases h
          · rw [if_neg (by simp [hk])]
            exact h
      | error e =>
          intro k i h
          exact h

theorem getPackageInfo_ok_cached {reg : Registry} {st : AnState} {n v : String}
    {info : PackageInfo} {st' : AnState}
    (h : getPackageInfo reg st n v = (Except.ok info, st')) :
    lookupA st'.cache (cacheKey n v) = some info := by
  unfold getPackageInfo at h
  dsimp only at h
  cases hl : lookupA st.cache (cacheKey n v) with
  | some i0 =>
      rw [hl] at h
      dsimp only at h
      simp only [Prod.mk.injEq] at h
      obtain ⟨h1, h2⟩ := h
      injection h1 with h1
      subst h1
      subst h2
      exact hl
  | none =>
      rw [hl] at h
      dsimp only at h
      cases hf : getPackageInfoFetch (reg n) n v with
      | ok j =>
          rw [hf] at h
          dsimp only at h
          simp only [Prod.mk.injEq] at h
          obtain ⟨h1, h2⟩ := h
          injection h1 with h1
          subst h1
          rw [← h2]
          show lookupA (setAssoc st.cache (cacheKey n v) j) (cacheKey n v) = some j
          rw [lookupA_setAssoc, if_pos (by simp)]
      | error e =>
          rw [hf] at h
          dsimp only at h
          simp at h

theorem getPackageInfo_replay (reg : Registry) (stB : AnState) (n v : String)
    (info : PackageInfo) (h : lookupA stB.cache (cacheKey n v) = some info) :
    getPackageInfo reg stB n v = (Except.ok info, stB) := by
  unfold getPackageInfo
  dsimp only
  rw [h]

/-- Monotonicity of the builder: the cache only grows (insert-once) and
the flat index only accumulates, whatever the outcome. -/
theorem build_mono (reg : Registry) (fuel : Nat) :
    (∀ st flat n v p,
      cacheLe st (buildDependencyTree reg fuel st flat n v p).2.2 ∧
        flatLe flat (buildDependencyTree reg fuel st flat n v p).2.1) ∧
    (∀ st flat deps p,
      cacheLe st (buildDependencyList reg fuel st flat deps p).2.2 ∧
        flatLe flat (buildDependencyList reg fuel st flat deps p).2.1) := by
  induction fuel with
  | zero =>
      constructor
      · intro st flat n v p
        exact ⟨cacheLe_refl st, flatLe_refl flat⟩
      · intro st flat deps p
        cases deps with
        | nil => exact ⟨cacheLe_refl st, flatLe_refl flat⟩
        | cons d rest => exact ⟨cacheLe_refl st, flatLe_refl flat⟩
  | succ fuel ih =>
      constructor
      · intro st flat n v p
        simp only [buildDependencyTree]
        rcases hg : getPackageInfo reg st n v with ⟨einfo, st'⟩
        have hgle : cacheLe st st' := by
          have := getPackageInfo_cacheLe reg st n v
          rw [hg] at this
          exact this
        cases einfo with
        | error e =>
            dsimp only
            exact ⟨hgle, flatLe_refl flat⟩
        | ok info =>
            dsimp only
            rcases hb : buildDependencyList reg fuel st'
                (addFlat flat (cacheKey n info.version) n info.version
                  (if p == "" then "root" else p))
                info.dependencies (childPath p n info.version) with ⟨ech, flat2, st2⟩
            have hble := ih.2 st'
              (addFlat flat (cacheKey n info.version) n info.version
                (if p == "" then "root" else p))
              info.dependencies (childPath p n info.version)
            rw [hb] at hble
            dsimp only at hble
            have hcl : cacheLe st st2 := cacheLe_trans hgle hble.1
            have hfl : flatLe flat flat2 :=
              flatLe_trans (addFlat_flatLe flat (cacheKey n info.version) n info.version
                (if p == "" then "root" else p)) hble.2
            cases ech with
            | ok children => exact ⟨hcl, hfl⟩
            | error e => exact ⟨hcl, hfl⟩
      · intro st flat deps p
        cases deps with
        | nil => exact ⟨cacheLe_refl st, flatLe_refl flat⟩
        | cons d rest =>
            obtain ⟨dn, dv⟩ := d
            simp only [buildDependencyList]
            rcases ht : buildDependencyTree reg fuel st flat dn dv p with ⟨e1, flat1, st1⟩
            have htle := ih.1 st flat dn dv p
            rw [ht] at htle
            dsimp only at htle
            cases e1 with
            | error e =>
                dsimp only
                exact htle
            | ok node =>
                dsimp only
                rcases hr : buildDependencyList reg fuel st1 flat1 rest p with ⟨e2, flat2, st2⟩
                have hrle := ih.2 st1 flat1 rest p
                rw [hr] at hrle
                dsimp only at hrle
                have hcl : cacheLe st st2 := cacheLe_trans htle.1 hrle.1
                have hfl : flatLe flat flat2 := flatLe_trans htle.2 hrle.2
                cases e2 with
                | ok nodes => exact ⟨hcl, hfl⟩
                | error e => exact ⟨hcl, hfl⟩

theorem occsChildren_mem {l : List (String × DepNode)} {cur : String}
    {o : String × String × String} (h : o ∈ occsChildren l cur) :
    ∃ pr ∈ l, o ∈ occsNode pr.2 cur := by
  induction l with
  | nil =>
      rw [occsChildren] at h
      cases h
  | cons c rest ih =>
      obtain ⟨cn, child⟩ := c
      rw [occsChildren] at h
      rcases List.mem_append.mp h with h1 | h1
      · exact ⟨(cn, child), List.mem_cons_self _ _, h1⟩
      · obtain ⟨pr, hpr, ho⟩ := ih h1
        exact ⟨pr, List.mem_cons_of_mem _ hpr, ho⟩

/-- Every occurrence of the resulting logical tree is recorded in the
final flat index under its name-at-version key, with the hosting parent
path (or root) among its requirers. -/
theorem build_occs (reg : Registry) (fuel : Nat) :
    (∀ st flat n v p t flat' st',
      buildDependencyTree reg fuel st flat n v p = (Except.ok t, flat', st') →
      ∀ o ∈ occsNode t p,
        flatRecords flat' (cacheKey o.1 o.2.1) (if o.2.2 == "" then "root" else o.2.2)) ∧
    (∀ st flat deps p ns flat' st',
      buildDependencyList reg fuel st flat deps p = (Except.ok ns, flat', st') →
      ∀ pr ∈ ns, ∀ o ∈ occsNode pr.2 p,
        flatRecords flat' (cacheKey o.1 o.2.1) (if o.2.2 == "" then "root" else o.2.2)) := by
  induction fuel with
  | zero =>
      constructor
      · intro st flat n v p t flat' st' h
        rw [buildDependencyTree] at h
        simp at h
      · intro st flat deps p ns flat' st' h
        cases deps with
        | nil =>
            simp only [buildDependencyList, Prod.mk.injEq] at h
            obtain ⟨h1, h2, h3⟩ := h
            injection h1 with h1
            subst h1
            intro pr hpr
            cases hpr
        | cons d rest =>
            obtain ⟨dn, dv⟩ := d
            rw [buildDependencyList] at h
            simp at h
  | succ fuel ih =>
      constructor
      · intro st flat n v p t flat' st' h
        simp only [buildDependencyTree] at h
        rcases hg : getPackageInfo reg st n v with ⟨einfo, st0⟩
        rw [hg] at h
        cases einfo with
        | error e => simp at h
        | ok info =>
            dsimp only at h
            rcases hb : buildDependencyList reg fuel st0
                (addFlat flat (cacheKey n info.version) n info.version
                  (if p == "" then "root" else p))
                info.dependencies (childPath p n info.version) with ⟨ech, flat2, st2⟩
            rw [hb] at h
            cases ech with
            | error e => simp at h
            | ok children =>
                dsimp only at h
                simp only [Prod.mk.injEq] at h
                obtain ⟨h1, h2, h3⟩ := h
                injection h1 with h1
                subst h1
                subst h2
                intro o ho
                rw [occsNode] at ho
                rcases List.mem_cons.mp ho with ho1 | ho1
                · subst ho1
                  have hrec := addFlat_records flat (cacheKey n info.version) n info.version
                    (if p == "" then "root" else p)
                  have hble := ih.2 st0
                    (addFlat flat (cacheKey n info.version) n info.version
                      (if p == "" then "root" else p))
                    info.dependencies (childPath p n info.version)
                  have hmono := build_mono reg fuel
                  have hflatle := (hmono.2 st0
                    (addFlat flat (cacheKey n info.version) n info.version
                      (if p == "" then "root" else p))
                    info.dependencies (childPath p n info.version)).2
                  rw [hb] at hflatle
                  exact flatLe_records hflatle hrec
                · obtain ⟨pr, hpr, hopr⟩ := occsChildren_mem ho1
                  exact ih.2 st0
                    (addFlat flat (cacheKey n info.version) n info.version
                      (if p == "" then "root" else p))
                    info.dependencies (childPath p n info.version) children flat2 st2 hb
                    pr hpr o hopr
      · intro st flat deps p ns flat' st' h
        cases deps with
        | nil =>
            simp only [buildDependencyList, Prod.mk.injEq] at h
            obtain ⟨h1, h2, h3⟩ := h
            injection h1 with h1
            subst h1
            intro pr hpr
            cases hpr
        | cons d rest =>
            obtain ⟨dn, dv⟩ := d
            simp only [buildDependencyList] at h
            rcases ht : buildDependencyTree reg fuel st flat dn dv p with ⟨e1, flat1, st1⟩
            rw [ht] at h
            cases e1 with
            | error e => simp at h
            | ok node =>
                dsimp only at h
                rcases hr : buildDependencyList reg fuel st1 flat1 rest p with ⟨e2, flat2, st2⟩
                rw [hr] at h
                cases e2 with
                | error e => simp at h
                | ok nodes =>
                    dsimp only at h
                    simp only [Prod.mk.injEq] at h
                    obtain ⟨h1, h2, h3⟩ := h
                    injection h1 with h1
                    subst h1
                    subst h2
                    intro pr hpr
                    rcases List.mem_cons.mp hpr with hpr1 | hpr1
                    · subst hpr1
                      intro o ho
                      have hhead := ih.1 st flat dn dv p node flat1 st1 ht o ho
                      have hflatle := ((build_mono reg fuel).2 st1 flat1 rest p).2
                      rw [hr] at hflatle
                      exact flatLe_records hflatle hhead
                    · exact ih.2 st1 flat1 rest p nodes flat2 st2 hr pr hpr1

/-- Replay: a successful build leaves a state from which the same build
replays to the same tree and flat index while touching neither the cache
nor the fetch log — every resolution it needs is already cached. -/
theorem build_replay (reg : Registry) (fuel : Nat) :
    (∀ st flat n v p t flat' st2,
      buildDependencyTree reg fuel st flat n v p = (Except.ok t, flat', st2) →
      ∀ stB : AnState, cacheLe st2 stB →
        buildDependencyTree reg fuel stB flat n v p = (Except.ok t, flat', stB)) ∧
    (∀ st flat deps p ns flat' st2,
      buildDependencyList reg fuel st flat deps p = (Except.ok ns, flat', st2) →
      ∀ stB : AnState, cacheLe st2 stB →
        buildDependencyList reg fuel stB flat deps p = (Except.ok ns, flat', stB)) := by
  induction fuel with
  | zero =>
      constructor
      · intro st flat n v p t flat' st2 h
        rw [buildDependencyTree] at h
        simp at h
      · intro st flat deps p ns flat' st2 h stB hB
        cases deps with
        | nil =>
            simp only [buildDependencyList, Prod.mk.injEq] at h
            obtain ⟨h1, h2, h3⟩ := h
            injection h1 with h1
            subst h1
            subst h2
            subst h3
            rfl
        | cons d rest =>
            obtain ⟨dn, dv⟩ := d
            rw [buildDependencyList] at h
            simp at h
  | succ fuel ih =>
      constructor
      · intro st flat n v p t flat' st2 h stB hB
        simp only [buildDependencyTree] at h ⊢
        rcases hg : getPackageInfo reg st n v with ⟨einfo, st0⟩
        rw [hg] at h
        cases einfo with
        | error e => simp at h
        | ok info =>
            dsimp only at h
            rcases hb : buildDependencyList reg fuel st0
                (addFlat flat (cacheKey n info.version) n info.version
                  (if p == "" then "root" else p))
                info.dependencies (childPath p n info.version) with ⟨ech, flat2, st2'⟩
            rw [hb] at h
            cases ech with
            | error e => simp at h
            | ok children =>
                dsimp only at h
                simp only [Prod.mk.injEq] at h
                obtain ⟨h1, h2, h3⟩ := h
                injection h1 with h1
                subst h1
                subst h2
                subst h3
                have hcached0 : lookupA st0.cache (cacheKey n v) = some info :=
                  getPackageInfo_ok_cached hg
                have hliste := ((build_mono reg fuel).2 st0
                  (addFlat flat (cacheKey n info.version) n info.version
                    (if p == "" then "root" else p))
                  info.dependencies (childPath p n info.version)).1
                rw [hb] at hliste
                have hcachedB : lookupA stB.cache (cacheKey n v) = some info :=
                  hB _ _ (hliste _ _ hcached0)
                rw [getPackageInfo_replay reg stB n v info hcachedB]
                dsimp only
                have hrep := ih.2 st0
                  (addFlat flat (cacheKey n info.version) n info.version
                    (if p == "" then "root" else p))
                  info.dependencies (childPath p n info.version) children flat2 st2' hb stB hB
                rw [hrep]
      · intro st flat deps p ns flat' st2 h stB hB
        cases deps with
        | nil =>
            simp only [buildDependencyList, Prod.mk.injEq] at h
            obtain ⟨h1, h2, h3⟩ := h
            injection h1 with h1
            subst h1
            subst h2
            subst h3
            rfl
        | cons d rest =>
            obtain ⟨dn, dv⟩ := d
            simp only [buildDependencyList] at h ⊢
            rcases ht : buildDependencyTree reg fuel st flat dn dv p with ⟨e1, flat1, st1⟩
            rw [ht] at h
            cases e1 with
            | error e => simp at h
            | ok node =>
                dsimp only at h
                rcases hr : buildDependencyList reg fuel st1 flat1 rest p with ⟨e2, flat2, st2'⟩
                rw [hr] at h
                cases e2 with
                | error e => simp at h
                | ok nodes =>
                    dsimp only at h
                    simp only [Prod.mk.injEq] at h
                    obtain ⟨h1, h2, h3⟩ := h
                    injection h1 with h1
                    subst h1
                    subst h2
                    subst h3
                    have hrestle := ((build_mono reg fuel).2 st1 flat1 rest p).1
                    rw [hr] at hrestle
                    have htrep := ih.1 st flat dn dv p node flat1 st1 ht stB
                      (cacheLe_trans hrestle hB)
                    rw [htrep]
                    dsimp only
                    have hlrep := ih.2 st1 flat1 rest p nodes flat2 st2' hr stB hB
                    rw [hlrep]

/-! ## Cyclic-registry lemmas -/

theorem cyclic_getPackageInfo (st : AnState)
    (h : lookupA st.cache "a@1.0.0" = none ∨ lookupA st.cache "a@1.0.0" = some exInfoCyclic) :
    ∃ st', getPackageInfo exRegCyclic st "a" "1.0.0" = (Except.ok exInfoCyclic, st') ∧
      lookupA st'.cache "a@1.0.0" = some exInfoCyclic := by
  unfold getPackageInfo
  rw [show cacheKey "a" "1.0.0" = "a@1.0.0" from rfl]
  dsimp only
  rcases h with h | h
  · rw [h]
    dsimp only
    rw [show getPackageInfoFetch (exRegCyclic "a") "a" "1.0.0" = Except.ok exInfoCyclic from rfl]
    refine ⟨_, rfl, ?_⟩
    show lookupA (setAssoc st.cache "a@1.0.0" exInfoCyclic) "a@1.0.0" = some exInfoCyclic
    rw [lookupA_setAssoc]
    simp
  · rw [h]
    exact ⟨st, rfl, h⟩

theorem cyclic_build_exhausts (fuel : Nat) :
    (∀ st flat p,
      (lookupA st.cache "a@1.0.0" = none ∨ lookupA st.cache "a@1.0.0" = some exInfoCyclic) →
      (buildDependencyTree exRegCyclic fuel st flat "a" "1.0.0" p).1 =
        Except.error (JsError.error "fuel-exhausted")) ∧
    (∀ st flat p,
      (lookupA st.cache "a@1.0.0" = none ∨ lookupA st.cache "a@1.0.0" = some exInfoCyclic) →
      (buildDependencyList exRegCyclic fuel st flat [("a", "1.0.0")] p).1 =
        Except.error (JsError.error "fuel-exhausted")) := by
  induction fuel with
  | zero => exact ⟨fun st flat p _ => rfl, fun st flat p _ => rfl⟩
  | succ fuel ih =>
      constructor
      · intro st flat p h
        obtain ⟨st', hget, hst'⟩ := cyclic_getPackageInfo st h
        unfold buildDependencyTree
        rw [hget]
        dsimp only [exInfoCyclic]
        have hfail := ih.2 st'
          (addFlat flat (cacheKey "a" "1.0.0") "a" "1.0.0" (if p == "" then "root" else p))
          (childPath p "a" "1.0.0") (Or.inr hst')
        rcases hbl : buildDependencyList exRegCyclic fuel st'
            (addFlat flat (cacheKey "a" "1.0.0") "a" "1.0.0" (if p == "" then "root" else p))
            [("a", "1.0.0")] (childPath p "a" "1.0.0") with ⟨e1, flat2, st2⟩
        rw [hbl] at hfail
        dsimp only at hfail
        subst hfail
        rfl
      · intro st flat p h
        simp only [buildDependencyList]
        have hfail := ih.1 st flat p h
        rcases hbt : buildDependencyTree exRegCyclic fuel st flat "a" "1.0.0" p
          with ⟨e1, flat1, st1⟩
        rw [hbt] at hfail
        dsimp only at hfail
        subst hfail
        rfl

/-! ## Claims -/

/-- C6: the tree builder has no cycle guard — contrary to the active-path set of the claim — so on registry metadata whose declared dependencies
form a cycle (`a` at 1.0.0 depending on `a` at 1.0.0) the build fails to
complete within every finite recursion bound: the source recursion
diverges instead of truncating. -/
theorem cyclic_metadata_build_never_completes (fuel : Nat) :
    (buildDependencyTree exRegCyclic fuel ⟨[], []⟩ [] "a" "1.0.0" "").1 =
      Except.error (JsError.error "fuel-exhausted") :=
  (cyclic_build_exhausts fuel).1 ⟨[], []⟩ [] "" (Or.inl rfl)

/-- C3 counterexample: a logical root that declares a peer dependency on
its own name with an unsatisfied range is placed at root unconditionally,
and the resulting root violates the claimed peer-satisfaction property:
the entry for `a` requires peer `a` at 2.0.0 while root holds `a` at
1.0.0. -/
theorem root_peer_satisfaction_violated_by_self_peer :
    rootPeersOK (convertToHoistedTree exNodeSelfPeer).root = false := rfl

/-- C3 (amended): for every logical tree whose nodes have key-unique peer
maps and declare no peer dependency on their own name, every hoisted tree
the planner produces satisfies the root peer property: each peer
declaration of a root entry whose peer name has a root entry is satisfied
by the version of that entry.  Without the no-self-peer proviso the
unconditional root placement violates the property. -/
theorem hoisting_preserves_root_peer_satisfaction (n : DepNode) (h : depWF n = true) :
    rootPeersOK (convertToHoistedTree n).root = true := by
  match n with
  | DepNode.mk nm v deps peers =>
    rw [depWF] at h
    obtain ⟨h12, hdeps⟩ := bool_and_split h
    obtain ⟨hnd, hself⟩ := bool_and_split h12
    have hinit := rootInsert_inv [] (DepNode.mk nm v deps peers) none rfl rfl
      (canBeHoisted_nil _) hself hnd
    have hrun := processChildren_inv
      { root := setAssoc [] (DepNode.name (DepNode.mk nm v deps peers))
          (convertToHoistedDep (DepNode.mk nm v deps peers) none)
        nested := [] }
      deps (nodeKey (DepNode.mk nm v deps peers)) hinit.1 hinit.2 hdeps
    exact hrun.1

/-- C3 witness: a well-formed tree whose library child declares a react
peer satisfied by the hoisted react placement. -/
theorem hoisting_preserves_root_peer_satisfaction_witness :
    rootPeersOK (convertToHoistedTree exTreePeers).root = true :=
  hoisting_preserves_root_peer_satisfaction exTreePeers rfl

/-- C5: for every occurrence of a `(name, version)` pair in the logical
tree a successful build returns, the final flat index holds an entry
under the name-at-version key whose `requiredBy` set records the parent
path that hosted the occurrence, with `root` standing for the empty
parent path. -/
theorem flat_index_records_all_occurrences (reg : Registry) (fuel : Nat)
    (st : AnState) (flat : List (String × FlatDependency)) (n v p : String)
    (t : DepNode) (flat' : List (String × FlatDependency)) (st' : AnState)
    (h : buildDependencyTree reg fuel st flat n v p = (Except.ok t, flat', st'))
    (o : String × String × String) (ho : o ∈ occsNode t p) :
    flatRecords flat' (cacheKey o.1 o.2.1) (if o.2.2 == "" then "root" else o.2.2) :=
  (build_occs reg fuel).1 st flat n v p t flat' st' h o ho

/-- C5 witness: building `p` at 1.0.0 against `exRegPair` records the
occurrence of `q` at 1.2.0 under key `q@1.2.0` as required by the parent
path `p@1.0.0`. -/
theorem flat_index_records_all_occurrences_witness :
    flatRecords
      [("p@1.0.0", FlatDependency.mk "p" "1.0.0" ["root"]),
       ("q@1.2.0", FlatDependency.mk "q" "1.2.0" ["p@1.0.0"])]
      (cacheKey "q" "1.2.0") "p@1.0.0" :=
  flat_index_records_all_occurrences exRegPair 3 ⟨[], []⟩ [] "p" "1.0.0" ""
    (DepNode.mk "p" "1.0.0" [("q", DepNode.mk "q" "1.2.0" [] [])] [])
    [("p@1.0.0", FlatDependency.mk "p" "1.0.0" ["root"]),
     ("q@1.2.0", FlatDependency.mk "q" "1.2.0" ["p@1.0.0"])]
    ⟨[("p@1.0.0", PackageInfo.mk "p" "1.0.0" [("q", "^1.0.0")] [] []),
      ("q@^1.0.0", PackageInfo.mk "q" "1.2.0" [] [] [])], ["p", "q"]⟩
    rfl ("q", "1.2.0", "p@1.0.0") (by decide)

/-- C9 (amended): after a successful `analyzeSingle`, running the same
call again from the resulting analyzer state returns a structurally equal
result and leaves the state — cache and fetch log — unchanged: every key
the traversal needs is cached, keyed by the descriptor as asked, and a
cached key is never re-fetched. -/
theorem analyzeSingle_second_run_idempotent (reg : Registry) (fuel : Nat) (st : AnState)
    (n v : String) (res : AnalysisResult) (st1 : AnState)
    (h : analyzeSingle reg fuel st n v = (Except.ok res, st1)) :
    analyzeSingle reg fuel st1 n v = (Except.ok res, st1) := by
  unfold analyzeSingle at h ⊢
  rcases hb : buildDependencyTree reg fuel st [] n v "" with ⟨e1, flat, st'⟩
  rw [hb] at h
  cases e1 with
  | error e => simp at h
  | ok t =>
      dsimp only at h
      simp only [Prod.mk.injEq] at h
      obtain ⟨h1, h2⟩ := h
      injection h1 with h1
      subst h2
      have hrep := (build_replay reg fuel).1 st [] n v "" t flat st' hb st' (cacheLe_refl st')
      rw [hrep]
      dsimp only
      rw [h1]

/-- C9 witness: repeating the analysis of `a` at 1.0.0 from the state the
first run left returns the same result with no state change and no
additional fetches. -/
theorem analyzeSingle_second_run_idempotent_witness :
    analyzeSingle exRegSingle 2 exStSingle "a" "1.0.0" =
      (Except.ok exResSingle, exStSingle) :=
  analyzeSingle_second_run_idempotent exRegSingle 2 ⟨[], []⟩ "a" "1.0.0"
    exResSingle exStSingle rfl

/-- C1: version resolution selects in the fixed order exact key of
`versions`, then dist-tag, then `maxSatisfying` over the keys of
`versions` for a valid range — so a descriptor that is both a dist-tag
name and a valid range resolves via the tag — and when no selection is
made the fetch fails with a `PackageNotFoundError` whose cause chain
carries the message No matching version found. -/
theorem resolveVersion_resolution_order (doc : RegistryDoc) (d : String) :
    ((lookupA doc.versions d).isSome = true → resolveVersion doc d = some d) ∧
    (lookupA doc.versions d = none → ∀ t, lookupA doc.distTags d = some t →
      resolveVersion doc d = some t) ∧
    (lookupA doc.versions d = none → lookupA doc.distTags d = none →
      (Semver.validRange d).isSome = true →
      resolveVersion doc d = Semver.maxSatisfying (doc.versions.map Prod.fst) d) ∧
    (∀ name, resolveVersion doc d = none →
      getPackageInfoFetch (RegistryResponse.ok doc) name d =
        Except.error (JsError.packageNotFound name d
          (some (JsError.packageNotFound name d
            (some (JsError.error "No matching version found")))))) := by
  refine ⟨?_, ?_, ?_, ?_⟩
  · intro h
    unfold resolveVersion
    rw [if_pos h]
  · intro h1 t h2
    unfold resolveVersion
    rw [h1, h2]
    simp
  · intro h1 h2 h3
    unfold resolveVersion
    rw [h1, h2]
    simp [h3]
  · intro name h
    unfold getPackageInfoFetch getPackageInfoTry
    dsimp only
    rw [h]

/-- C1 witness: against `exDocTagRange` the descriptor `1.x` is both a
dist-tag name and a valid range, and resolves to the tag target
`2.0.0` rather than to `maxSatisfying`. -/
theorem resolveVersion_resolution_order_witness :
    resolveVersion exDocTagRange "1.x" = some "2.0.0" ∧
      (Semver.validRange "1.x").isSome = true :=
  ⟨(resolveVersion_resolution_order exDocTagRange "1.x").2.1 (by decide) "2.0.0" (by decide),
    by decide⟩

/-- C2: the version-conflict predicate of the planner returns no conflict on
string-equal versions; conflict when both parse as concrete versions that
differ; when exactly one side is concrete and the other side is a range,
conflict exactly when the concrete version does not satisfy the range;
and conflict when both sides fail to parse as concrete versions — which
covers both the two-ranges case and the malformed case the defensive catch of the source guards (none of the modelled semver operations throws, so
the catch is unreachable). -/
theorem hasVersionConflict_case_analysis (a b : String) :
    (a = b → hasVersionConflict a b = false) ∧
    (∀ va vb, parseVersion a = some va → parseVersion b = some vb → va ≠ vb →
      hasVersionConflict a b = true) ∧
    ((parseVersion a).isSome = true → parseVersion b = none → (parseRange b).isSome = true →
      hasVersionConflict a b = !(Semver.satisfies a b)) ∧
    (parseVersion a = none → (parseRange a).isSome = true → (parseVersion b).isSome = true →
      hasVersionConflict a b = !(Semver.satisfies b a)) ∧
    (parseVersion a = none → parseVersion b = none → a ≠ b →
      hasVersionConflict a b = true) := by
  refine ⟨?_, ?_, ?_, ?_, ?_⟩
  · intro h
    subst h
    unfold hasVersionConflict
    rw [if_pos (by simp)]
  · intro va vb ha hb hne
    have hab : a ≠ b := by
      intro h
      rw [h] at ha
      rw [ha] at hb
      exact hne (Option.some_inj.mp hb)
    have hva : Semver.valid a = some a := by
      unfold Semver.valid; rw [if_pos (by simp [ha])]
    have hvb : Semver.valid b = some b := by
      unfold Semver.valid; rw [if_pos (by simp [hb])]
    unfold hasVersionConflict
    rw [if_neg (by simp [hab]), hva, hvb]
    dsimp only
    simp [bne, hab]
  · intro ha hb hr
    have hab : a ≠ b := by
      intro h
      rw [h, hb] at ha
      exact Bool.false_ne_true ha
    have hva : Semver.valid a = some a := by
      unfold Semver.valid; rw [if_pos ha]
    have hvb : Semver.valid b = none := by
      unfold Semver.valid; rw [if_neg (by simp [hb])]
    have hvr : Semver.validRange b = some b := by
      unfold Semver.validRange; rw [if_pos hr]
    unfold hasVersionConflict
    rw [if_neg (by simp [hab]), hva, hvb, hvr]
    rfl
  · intro ha hr hb
    have hab : a ≠ b := by
      intro h
      rw [← h, ha] at hb
      exact Bool.false_ne_true hb
    have hva : Semver.valid a = none := by
      unfold Semver.valid; rw [if_neg (by simp [ha])]
    have hvb : Semver.valid b = some b := by
      unfold Semver.valid; rw [if_pos hb]
    have hvr : Semver.validRange a = some a := by
      unfold Semver.validRange; rw [if_pos hr]
    unfold hasVersionConflict
    rw [if_neg (by simp [hab]), hva, hvb, hvr]
    rfl
  · intro ha hb hab
    have hva : Semver.valid a = none := by
      unfold Semver.valid; rw [if_neg (by simp [ha])]
    have hvb : Semver.valid b = none := by
      unfold Semver.valid; rw [if_neg (by simp [hb])]
    unfold hasVersionConflict
    rw [if_neg (by simp [hab]), hva, hvb]

/-- C2 witness: a concrete version against a caret range is in conflict
exactly when satisfaction fails. -/
theorem hasVersionConflict_case_analysis_witness :
    hasVersionConflict "1.2.3" "^1.0.0" = !(Semver.satisfies "1.2.3" "^1.0.0") :=
  (hasVersionConflict_case_analysis "1.2.3" "^1.0.0").2.2.1 (by decide) (by decide) (by decide)

/-- C4: a non-root node is placed into the nested bucket of its parent
path only when its name already has a root entry whose version conflicts
with it, or the peer check fails; when the name is free and the peer
check passes it is hoisted to root, and when the name is taken without
conflict and the peer check passes the existing root placement is reused.
The walk `processNode` applies `placeDecision` through `processOne`. -/
theorem nested_placement_minimality (tree : HoistedTree) (n : DepNode) :
    (placeDecision tree n = Placement.toNested →
      (∃ e, lookupA tree.root n.name = some e ∧
          hasVersionConflict e.version n.version = true) ∨
        canBeHoisted tree.root n = false) ∧
    (placeDecision tree n = Placement.toRoot →
      lookupA tree.root n.name = none ∧ canBeHoisted tree.root n = true) ∧
    (placeDecision tree n = Placement.reuse →
      ∃ e, lookupA tree.root n.name = some e ∧
        hasVersionConflict e.version n.version = false ∧
        canBeHoisted tree.root n = true) := by
  refine ⟨?_, ?_, ?_⟩
  · intro h
    rcases placeDecision_toNested_inv h with ⟨_, hc⟩ | ⟨e, he, hec⟩
    · exact Or.inr hc
    · rcases hec with hv | hc
      · exact Or.inl ⟨e, he, hv⟩
      · exact Or.inr hc
  · exact placeDecision_toRoot_inv
  · exact placeDecision_reuse_inv

/-- C4 witness: a candidate whose name is taken at root by a conflicting
version is sent to the nested bucket. -/
theorem nested_placement_minimality_witness :
    (∃ e, lookupA exTreeRootA.root (DepNode.name exNodeA2) = some e ∧
        hasVersionConflict e.version (DepNode.version exNodeA2) = true) ∨
      canBeHoisted exTreeRootA.root exNodeA2 = false :=
  (nested_placement_minimality exTreeRootA exNodeA2).1 (by decide)

/-- C7: `analyzeMultiple` on an empty package list returns an empty
`individual` map and an empty combined flat index, but — contrary to the
specification — the root of the combined hoisted tree is not empty: the
unconditional root placement of the walk puts the synthetic
`virtual-root` package itself into `hoistedTree.root`. -/
theorem analyzeMultiple_empty_places_virtual_root :
    analyzeMultiple exRegUnused 1 ⟨[], []⟩ [] =
      (Except.ok
        { individual := []
          combinedHoistedTree :=
            { root := [("virtual-root",
                { name := "virtual-root", version := "0.0.0", dependencies := []
                  peerDependencies := [], parent := none })]
              nested := [] }
          combinedFlatDependencies := [] }, ⟨[], []⟩) := rfl

/-- C8 (amended): the uncached fetch-and-resolve path fails exactly on a
non-2xx status, an unparseable body, a transport failure, a descriptor
matching nothing, or a descriptor whose selected version — necessarily
one reached through a dist-tag — has no record under `versions`; and
every failure surfaces as a `PackageNotFoundError` naming the package and
descriptor with a cause attached. -/
theorem getPackageInfoFetch_failure_characterization
    (resp : RegistryResponse) (name d : String) :
    (exceptIsOk (getPackageInfoFetch resp name d) = !(resolutionFails resp d)) ∧
    (∀ e, getPackageInfoFetch resp name d = Except.error e →
      ∃ c, e = JsError.packageNotFound name d (some c)) := by
  cases resp with
  | nonOk =>
      refine ⟨rfl, fun e he => ?_⟩
      have h2 : Except.error (JsError.packageNotFound name d
          (some (JsError.packageNotFound name d none))) =
          (Except.error e : Except JsError PackageInfo) := he
      injection h2 with h3
      exact ⟨_, h3.symm⟩
  | parseFailure =>
      refine ⟨rfl, fun e he => ?_⟩
      have h2 : Except.error (JsError.packageNotFound name d
          (some (JsError.error "Unexpected end of JSON input"))) =
          (Except.error e : Except JsError PackageInfo) := he
      injection h2 with h3
      exact ⟨_, h3.symm⟩
  | transportError m =>
      refine ⟨rfl, fun e he => ?_⟩
      have h2 : Except.error (JsError.packageNotFound name d
          (some (JsError.error m))) =
          (Except.error e : Except JsError PackageInfo) := he
      injection h2 with h3
      exact ⟨_, h3.symm⟩
  | ok doc =>
      cases hr : resolveVersion doc d with
      | none =>
          constructor
          · unfold exceptIsOk getPackageInfoFetch getPackageInfoTry resolutionFails
            dsimp only
            rw [hr]
            rfl
          · intro e he
            unfold getPackageInfoFetch getPackageInfoTry at he
            dsimp only at he
            rw [hr] at he
            dsimp only at he
            injection he with h3
            exact ⟨_, h3.symm⟩
      | some mv =>
          cases hv : lookupA doc.versions mv with
          | none =>
              constructor
              · unfold exceptIsOk getPackageInfoFetch getPackageInfoTry resolutionFails
                dsimp only
                rw [hr]
                dsimp only
                rw [hv]
                rfl
              · intro e he
                unfold getPackageInfoFetch getPackageInfoTry at he
                dsimp only at he
                rw [hr] at he
                dsimp only at he
                rw [hv] at he
                dsimp only at he
                injection he with h3
                exact ⟨_, h3.symm⟩
          | some meta =>
              constructor
              · unfold exceptIsOk getPackageInfoFetch getPackageInfoTry resolutionFails
                dsimp only
                rw [hr]
                dsimp only
                rw [hv]
                rfl
              · intro e he
                unfold getPackageInfoFetch getPackageInfoTry at he
                dsimp only at he
                rw [hr] at he
                dsimp only at he
                rw [hv] at he
                dsimp only at he
                cases he

/-- C8 counterexample: against `exDocDangling` the descriptor `latest`
does match a version through `dist-tags` — so none of the four failure conditions of the claim holds — yet the fetch path still fails, because the
tag target `2.0.0` has no record in `versions`. -/
theorem dangling_dist_tag_fails_resolution :
    resolveVersion exDocDangling "latest" = some "2.0.0" ∧
    lookupA exDocDangling.versions "2.0.0" = none ∧
    exceptIsOk (getPackageInfoFetch (RegistryResponse.ok exDocDangling) "a" "latest") = false := by
  decide

/-- C8 witness: a non-2xx response surfaces as a `PackageNotFoundError`
with a cause attached. -/
theorem getPackageInfoFetch_failure_characterization_witness :
    ∃ c, JsError.packageNotFound "x" "1.0.0"
        (some (JsError.packageNotFound "x" "1.0.0" none)) =
      JsError.packageNotFound "x" "1.0.0" (some c) :=
  (getPackageInfoFetch_failure_characterization RegistryResponse.nonOk "x" "1.0.0").2 _ rfl

/-- C9 counterexample: two resolutions of one cache key started together
— as sibling dependency resolutions are (part_002 lines 179–192) — both
run their cache check before either fetch completes, so both miss and two
fetches are issued rather than the single shared fetch the claim
requires. -/
theorem concurrent_same_key_resolutions_double_fetch :
    concurrentSameKeyFetches [] "x@1.0.0" = 2 := rfl

/-- C10: the registry request URL for a scoped package interpolates the
name verbatim, so the slash of a scoped name reaches the path unencoded,
contrary to the percent-encoding the claim requires. -/
theorem scoped_request_url_not_percent_encoded :
    requestUrl "https://registry.npmjs.org" "@scope/pkg" =
      "https://registry.npmjs.org/@scope/pkg" ∧
    requestUrl "https://registry.npmjs.org" "@scope/pkg" ≠
      "https://registry.npmjs.org/@scope%2Fpkg" := by
  exact ⟨rfl, by decide⟩

end NpmDep
